import Mathlib

set_option autoImplicit false
set_option maxRecDepth 8000

/-!
Verification of the null-injection core of dm-data-null-injector
(src/main.py, function inject_nulls).

A pandas DataFrame is modelled as an ordered list of named columns, each an
ordered list of cells indexed by row position (the default RangeIndex, so the
row label used by `data.at[index, col]` coincides with the row position).
Randomness (`random.random()`) is modelled as an ambient stream of rational
samples consumed left to right; a real stream satisfies `RngOk` (every sample
lies in [0,1)).  Logging calls are modelled as an event list; the in-place
mutation of the `data` argument is modelled by returning the final state of
that argument next to the returned value or raised exception.
-/

/-- A cell of a loaded table: heterogeneous scalar values, or the explicit null
marker (`None`/`NaN` in pandas). -/
inductive Cell where
  | str (s : String)
  | num (n : Int)
  | boolV (b : Bool)
  | null
  deriving DecidableEq

/-- A DataFrame: its ordered list of named columns, each an ordered list of
cells in row order. -/
abbrev Table := List (String × List Cell)

/-- The value passed for the `data` argument: either a DataFrame, or some other
Python value (e.g. a plain list), which fails the `isinstance` check of
src/main.py line 42. -/
inductive PyData where
  | table (t : Table)
  | other
  deriving DecidableEq

/-- Exceptions that inject_nulls can raise: `TypeError` (line 43), `ValueError`
(line 46), and an `re.error` surfaced from pattern matching inside the loop and
re-raised at line 62. -/
inductive PyErr where
  | typeError (msg : String)
  | valueError (msg : String)
  | reError (msg : String)
  deriving DecidableEq

/-- The outcome of a call: a returned table, or a raised exception. -/
inductive Outcome where
  | ok (t : Table)
  | raised (e : PyErr)
  deriving DecidableEq

/-- Logging calls made by inject_nulls: the warning of line 52, the debug
message of line 59 and the error message of line 61. -/
inductive LogEvent where
  | warnMissing (col : String)
  | debugReplaced (row : Nat) (col : String)
  | errorLogged (msg : String)
  deriving DecidableEq

/-- One atom of the modelled regular-expression subset: a literal character or
the wildcard dot. -/
inductive RAtom where
  | lit (c : Char)
  | dot
  deriving DecidableEq

/-- A compiled pattern of the modelled subset: a sequence of atoms, optionally
required to reach the end of the string (trailing dollar). -/
structure RPattern where
  atoms : List RAtom
  anchorEnd : Bool
  deriving DecidableEq

/-- Metacharacters outside the modelled regex subset.  An unbalanced bracket
such as a lone opening parenthesis is an `re.error` in the host library; the
model reports every such metacharacter as a compile error. -/
def reMeta : List Char :=
  ['(', ')', '[', ']', '\x7b', '\x7d', '*', '+', '?', '|', '\\', '^', '$']

/-- Parse the body of a pattern (after an optional leading caret) into atoms
and an optional end anchor. -/
def reParseAux : List Char → Except String (List RAtom × Bool)
  | [] => Except.ok ([], false)
  | ['$'] => Except.ok ([], true)
  | c :: rest =>
    if c ∈ reMeta then Except.error "unbalanced or unsupported pattern construct"
    else
      match reParseAux rest with
      | Except.error m => Except.error m
      | Except.ok (as, e) =>
        Except.ok ((if c = '.' then RAtom.dot else RAtom.lit c) :: as, e)

/-- Model of the host regex library's compile step (re.compile, reached through
pandas `.str.match`), restricted to the subset: an optional leading caret (a
no-op under anchored matching), then literal characters and dots, then an
optional trailing dollar.  Patterns outside the subset are modelled as compile
errors (`re.error`). -/
def reParse (p : String) : Except String RPattern :=
  let cs :=
    match p.data with
    | '^' :: rest => rest
    | l => l
  match reParseAux cs with
  | Except.error m => Except.error m
  | Except.ok (as, e) => Except.ok ⟨as, e⟩

/-- Whether one atom matches one character (a dot matches everything but a
newline, as in the host library). -/
def atomMatches : RAtom → Char → Bool
  | RAtom.lit c, d => c = d
  | RAtom.dot, d => d ≠ '\n'

/-- Anchored matching of a compiled pattern against a string: the atoms must
match consecutive characters from position 0; without an end anchor the rest of
the string is ignored. -/
def matchAtoms : List RAtom → Bool → List Char → Bool
  | [], false, _ => true
  | [], true, s => s.isEmpty
  | _ :: _, _, [] => false
  | a :: as, e, c :: cs => atomMatches a c && matchAtoms as e cs

/-- The match-at-start test of `pd.Series(value).str.match(pattern)[0]`
(re.match semantics: anchored at the start of the string, not required to
consume it); a malformed pattern yields the compile error instead. -/
def reMatch (pat s : String) : Except String Bool :=
  match reParse pat with
  | Except.error m => Except.error m
  | Except.ok r => Except.ok (matchAtoms r.atoms r.anchorEnd s.data)

/-- Whether a cell holds a string (the `isinstance(value, str)` test). -/
def Cell.isStr : Cell → Bool
  | Cell.str _ => true
  | _ => false

/-- Eligibility of one cell, line 56: `pattern is None or (isinstance(value,
str) and bool(pd.Series(value).str.match(pattern)[0]))`.  With a pattern
present, a non-string value short-circuits to ineligible before the pattern is
ever compiled, so only a string cell can surface a pattern error. -/
def eligibleCell : Option String → Cell → Except String Bool
  | none, _ => Except.ok true
  | some pat, Cell.str s => reMatch pat s
  | some _, _ => Except.ok false

/-- Characters removed by Python str.strip at both ends. -/
def stripChars (l : List Char) : List Char :=
  ((l.dropWhile Char.isWhitespace).reverse.dropWhile Char.isWhitespace).reverse

/-- Model of Python `str.strip()`: remove leading and trailing whitespace
(line 49, `col.strip()`). -/
def pyStrip (s : String) : String := String.mk (stripChars s.data)

/-- The ordered column names of a table (`data.columns`). -/
def tableCols (t : Table) : List String := t.map Prod.fst

/-- Look up a column by name (`data[col]`); first match. -/
def getCol : Table → String → Option (List Cell)
  | [], _ => none
  | (n, cs) :: tl, name => if n = name then some cs else getCol tl name

/-- Replace the cells of the first column with the given name (the aggregate
effect of the `data.at[index, col] = None` writes for one column pass). -/
def setCol : Table → String → List Cell → Table
  | [], _, _ => []
  | (n, cs) :: tl, name, cells =>
    if n = name then (n, cells) :: tl else (n, cs) :: setCol tl name cells

/-- Contract of `random.random()`: every draw of the stream lies in [0,1). -/
def RngOk (rng : Nat → ℚ) : Prop := ∀ k, 0 ≤ rng k ∧ rng k < 1

/-- Result of one column pass: the processed cells, the next sample index, the
log events emitted, the cells (column, row) for which a sample was drawn, and
the pending exception if matching failed. -/
structure CellsOut where
  cells : List Cell
  k : Nat
  log : List LogEvent
  visits : List (String × Nat)
  err : Option String
  deriving DecidableEq

/-- Result of the whole column loop: the table state, the next sample index,
the log, the sampled cells, and the pending exception. -/
structure ColsOut where
  table : Table
  k : Nat
  log : List LogEvent
  visits : List (String × Nat)
  err : Option String
  deriving DecidableEq

/-- Lines 55-59: iterate the rows of one column.  `i` is the current row index,
`k` the index of the next random sample.  An eligible cell draws exactly one
sample and is overwritten with the null marker when the sample is below `p`; a
pattern failure stops the iteration, leaving this and all later cells of the
column unchanged. -/
def processCells (col : String) (p : ℚ) (pat : Option String) (rng : Nat → ℚ) :
    List Cell → Nat → Nat → CellsOut
  | [], _, k => ⟨[], k, [], [], none⟩
  | c :: rest, i, k =>
    match eligibleCell pat c with
    | Except.error m => ⟨c :: rest, k, [], [], some m⟩
    | Except.ok false =>
      let r := processCells col p pat rng rest (i + 1) k
      { r with cells := c :: r.cells }
    | Except.ok true =>
      if rng k < p then
        let r := processCells col p pat rng rest (i + 1) (k + 1)
        { r with
          cells := Cell.null :: r.cells
          log := LogEvent.debugReplaced i col :: r.log
          visits := (col, i) :: r.visits }
      else
        let r := processCells col p pat rng rest (i + 1) (k + 1)
        { r with
          cells := c :: r.cells
          visits := (col, i) :: r.visits }

/-- Lines 50-59: the loop over the resolved column names.  A name not present
in the table logs a warning and is skipped; a pattern failure inside a column
aborts the whole loop with the exception pending. -/
def processColumns (p : ℚ) (pat : Option String) (rng : Nat → ℚ) :
    List String → Table → Nat → ColsOut
  | [], t, k => ⟨t, k, [], [], none⟩
  | c :: rest, t, k =>
    match getCol t c with
    | none =>
      let r := processColumns p pat rng rest t k
      { r with log := LogEvent.warnMissing c :: r.log }
    | some cells =>
      let rc := processCells c p pat rng cells 0 k
      let t' := setCol t c rc.cells
      match rc.err with
      | some m => ⟨t', rc.k, rc.log, rc.visits, some m⟩
      | none =>
        let r := processColumns p pat rng rest t' rc.k
        ⟨r.table, r.k, rc.log ++ r.log, rc.visits ++ r.visits, r.err⟩

/-- Line 49: `data.columns if columns is None else [col.strip() for col in columns]`. -/
def resolveCols (cols : Option (List String)) (t : Table) : List String :=
  match cols with
  | none => tableCols t
  | some cs => cs.map pyStrip

/-- What one call to inject_nulls produces: the returned table or the raised
exception, the state of the `data` argument after the call (it is mutated in
place), the log events in order, and the sampled cell positions in order. -/
structure InjectResult where
  result : Outcome
  state : PyData
  log : List LogEvent
  visits : List (String × Nat)
  deriving DecidableEq

/-- Message of the TypeError of line 43. -/
def typeMsg : String := "Input data must be a pandas DataFrame."

/-- Message of the ValueError of line 46. -/
def rangeMsg : String := "Probability must be between 0.0 and 1.0."

/-- inject_nulls, src/main.py lines 42-64.  Validation first: a non-DataFrame
argument raises TypeError, a probability outside [0,1] raises ValueError, both
before any cell is touched.  Then the column loop runs; a pattern failure is
logged at error level and re-raised (lines 60-62). -/
def inject_nulls (data : PyData) (p : ℚ) (pat : Option String)
    (cols : Option (List String)) (rng : Nat → ℚ) : InjectResult :=
  match data with
  | PyData.other => ⟨Outcome.raised (PyErr.typeError typeMsg), PyData.other, [], []⟩
  | PyData.table t =>
    if 0 ≤ p ∧ p ≤ 1 then
      let r := processColumns p pat rng (resolveCols cols t) t 0
      match r.err with
      | some m =>
        ⟨Outcome.raised (PyErr.reError m), PyData.table r.table,
          r.log ++ [LogEvent.errorLogged m], r.visits⟩
      | none => ⟨Outcome.ok r.table, PyData.table r.table, r.log, r.visits⟩
    else ⟨Outcome.raised (PyErr.valueError rangeMsg), PyData.table t, [], []⟩

/-- Whether the supplied pattern is absent or inside the well-formed subset. -/
def patOk : Option String → Bool
  | none => true
  | some s =>
    match reParse s with
    | Except.ok _ => true
    | Except.error _ => false

/-- The table with the cells of every column named in `sel` overwritten by the
null marker (the net effect of a probability-1, pattern-free run over `sel`). -/
def nullifyCols (sel : List String) (t : Table) : Table :=
  t.map (fun nc => if nc.1 ∈ sel then (nc.1, nc.2.map (fun _ => Cell.null)) else nc)

/-- Per-cell frame relation for a run with a pattern: a cell that does not hold
a string can only come out unchanged. -/
def cellKeep (a b : Cell) : Prop := a.isStr = false → b = a

/-- Table-level frame relation: same column layout, and pointwise `cellKeep`
between old and new cells. -/
def TableNS (t t' : Table) : Prop :=
  List.Forall₂ (fun nc nc' => nc.1 = nc'.1 ∧ List.Forall₂ cellKeep nc.2 nc'.2) t t'

/-- Frame relation for a restricted run: a column whose name is outside the
selection comes out exactly as it went in. -/
def UnchangedOutside (sel : List String) (t t' : Table) : Prop :=
  List.Forall₂ (fun nc nc' => nc.1 ∉ sel → nc' = nc) t t'

/-- Whether the named column exists in the table and contains a string cell
(the condition under which a malformed pattern is actually reached). -/
def hasStrCol (t : Table) (c : String) : Bool :=
  match getCol t c with
  | none => false
  | some cells => cells.any Cell.isStr

/-- Concrete table used to instantiate C1. -/
def exT1 : Table := [("A", [Cell.num 5, Cell.str "x"]), ("B", [Cell.boolV true])]

/-- Concrete column for C4 (spec section 8, pattern-restriction property). -/
def fruitT : Table :=
  [("fruit", [Cell.str "apple", Cell.str "banana", Cell.str "avocado"])]

/-- Concrete table for C5 (spec section 8, column-restriction property). -/
def exABC : Table :=
  [("A", [Cell.num 1, Cell.num 2]), ("B", [Cell.str "x", Cell.num 3]),
    ("C", [Cell.boolV true, Cell.str "y"])]

theorem setCol_cons_pos (n : String) (cs cells : List Cell) (tl : Table) :
    setCol ((n, cs) :: tl) n cells = (n, cells) :: tl := by
  simp [setCol]

theorem setCol_cons_neg {n c : String} (h : n ≠ c) (cs cells : List Cell) (tl : Table) :
    setCol ((n, cs) :: tl) c cells = (n, cs) :: setCol tl c cells := by
  simp [setCol, h]

theorem getCol_eq_none {c : String} {t : Table} :
    getCol t c = none ↔ c ∉ tableCols t := by
  induction t with
  | nil => simp [getCol, tableCols]
  | cons hd tl ih =>
    obtain ⟨n, cs⟩ := hd
    by_cases h : n = c
    · subst h; simp [getCol, tableCols]
    · simp [getCol, h, tableCols, Ne.symm h] at ih ⊢
      simpa [tableCols] using ih

theorem setCol_getCol {c : String} {cells : List Cell} :
    ∀ {t : Table}, getCol t c = some cells → setCol t c cells = t := by
  intro t
  induction t with
  | nil => simp [getCol]
  | cons hd tl ih =>
    obtain ⟨n, cs⟩ := hd
    by_cases h : n = c
    · subst h
      simp [getCol, setCol]
      intro hcs; exact hcs.symm
    · simp [getCol, setCol, h]
      exact ih

theorem tableCols_setCol (t : Table) (c : String) (cells : List Cell) :
    tableCols (setCol t c cells) = tableCols t := by
  induction t with
  | nil => simp [setCol]
  | cons hd tl ih =>
    obtain ⟨n, cs⟩ := hd
    by_cases h : n = c
    · simp [setCol, h, tableCols]
    · simp [setCol, h, tableCols] at ih ⊢
      exact ih

theorem tableCols_processColumns (p : ℚ) (pat : Option String) (rng : Nat → ℚ) :
    ∀ (cols : List String) (t : Table) (k : Nat),
      tableCols (processColumns p pat rng cols t k).table = tableCols t := by
  intro cols
  induction cols with
  | nil => intro t k; simp [processColumns]
  | cons c rest ih =>
    intro t k
    cases hg : getCol t c with
    | none => simpa [processColumns, hg] using ih t k
    | some cells =>
      cases he : (processCells c p pat rng cells 0 k).err with
      | some m => simp [processColumns, hg, he, tableCols_setCol]
      | none =>
        simp only [processColumns, hg, he]
        rw [ih, tableCols_setCol]

theorem processCells_prob_one {rng : Nat → ℚ} (hr : RngOk rng) (col : String) :
    ∀ (cells : List Cell) (i k : Nat),
      (processCells col 1 none rng cells i k).cells = cells.map (fun _ => Cell.null) ∧
      (processCells col 1 none rng cells i k).k = k + cells.length ∧
      (processCells col 1 none rng cells i k).err = none := by
  intro cells
  induction cells with
  | nil => intro i k; simp [processCells]
  | cons c rest ih =>
    intro i k
    have hlt : rng k < 1 := (hr k).2
    obtain ⟨h1, h2, h3⟩ := ih (i + 1) (k + 1)
    refine ⟨?_, ?_, ?_⟩
    · simp [processCells, eligibleCell, hlt, h1]
    · simp [processCells, eligibleCell, hlt, h2]; omega
    · simp [processCells, eligibleCell, hlt, h3]

theorem nullifyCols_not_mem {c : String} {u : Table} (h : c ∉ tableCols u)
    (sel : List String) : nullifyCols (c :: sel) u = nullifyCols sel u := by
  unfold nullifyCols
  refine List.map_congr_left ?_
  intro nc hnc
  have hne : nc.1 ≠ c := by
    intro hc
    exact h (hc ▸ List.mem_map_of_mem Prod.fst hnc)
  simp [hne]

theorem nullify_setCol {c : String} {cells : List Cell} (sel : List String) :
    ∀ {t : Table}, (tableCols t).Nodup → getCol t c = some cells →
      nullifyCols sel (setCol t c (cells.map (fun _ => Cell.null))) =
        nullifyCols (c :: sel) t := by
  intro t
  induction t with
  | nil => simp [getCol]
  | cons hd tl ih =>
    obtain ⟨n, cs⟩ := hd
    intro hnd hg
    have hnd₂ : (n :: tableCols tl).Nodup := by simpa [tableCols] using hnd
    have hndtl : (tableCols tl).Nodup := hnd₂.of_cons
    have hnmem : n ∉ tableCols tl := (List.nodup_cons.mp hnd₂).1
    by_cases h : n = c
    · subst h
      have hcs : cells = cs := by simpa [getCol] using hg.symm
      subst hcs
      rw [setCol_cons_pos]
      simp only [nullifyCols, List.map_cons]
      congr 1
      · by_cases hsel : n ∈ sel <;> simp [hsel, List.map_map]
      · exact (nullifyCols_not_mem hnmem sel).symm
    · have hgtl : getCol tl c = some cells := by simpa [getCol, h] using hg
      rw [setCol_cons_neg h]
      simp only [nullifyCols, List.map_cons]
      congr 1
      · simp [h]
      · exact ih hndtl hgtl

theorem processColumns_prob_one {rng : Nat → ℚ} (hr : RngOk rng) :
    ∀ (cols : List String) (t : Table) (k : Nat), (tableCols t).Nodup →
      (processColumns 1 none rng cols t k).table = nullifyCols cols t ∧
      (processColumns 1 none rng cols t k).err = none := by
  intro cols
  induction cols with
  | nil => intro t k _; simp [processColumns, nullifyCols]
  | cons c rest ih =>
    intro t k hnd
    cases hg : getCol t c with
    | none =>
      obtain ⟨h1, h2⟩ := ih t k hnd
      have hnm : c ∉ tableCols t := getCol_eq_none.mp hg
      simp [processColumns, hg, h1, h2, nullifyCols_not_mem hnm rest]
    | some cells =>
      obtain ⟨hc1, hc2, hc3⟩ := processCells_prob_one hr c cells 0 k
      obtain ⟨h1, h2⟩ := ih (setCol t c (cells.map (fun _ => Cell.null))) (k + cells.length)
        (by rwa [tableCols_setCol])
      constructor
      · simp only [processColumns, hg, hc3]
        rw [hc1, hc2, h1]
        exact nullify_setCol rest hnd hg
      · simp only [processColumns, hg, hc3]
        rw [hc1, hc2]
        exact h2

/-- C1: probability 1.0 with no pattern and no column restriction nullifies
every cell of every column of the returned table (which is the input table
with the cells of all its columns overwritten by the null marker). -/
theorem inject_nulls_prob_one_all_null (t : Table) (rng : Nat → ℚ)
    (hr : RngOk rng) (hnd : (tableCols t).Nodup) :
    (inject_nulls (PyData.table t) 1 none none rng).result =
      Outcome.ok (nullifyCols (tableCols t) t) ∧
    ∀ nc ∈ nullifyCols (tableCols t) t, ∀ c ∈ nc.2, c = Cell.null := by
  constructor
  · obtain ⟨h1, h2⟩ := processColumns_prob_one hr (tableCols t) t 0 hnd
    have hp : (0 : ℚ) ≤ 1 ∧ (1 : ℚ) ≤ 1 := by norm_num
    simp [inject_nulls, resolveCols, hp, h1, h2]
  · intro nc hnc c hc
    unfold nullifyCols at hnc
    obtain ⟨nc₀, hmem, rfl⟩ := List.mem_map.mp hnc
    have : nc₀.1 ∈ tableCols t := List.mem_map_of_mem Prod.fst hmem
    simp only [if_pos this] at hc
    obtain ⟨_, _, rfl⟩ := List.mem_map.mp hc
    rfl

theorem inject_nulls_prob_one_all_null_witness :
    (inject_nulls (PyData.table exT1) 1 none none (fun _ => 0)).result =
      Outcome.ok (nullifyCols (tableCols exT1) exT1) ∧
    ∀ nc ∈ nullifyCols (tableCols exT1) exT1, ∀ c ∈ nc.2, c = Cell.null :=
  inject_nulls_prob_one_all_null exT1 (fun _ => 0)
    (fun _ => by norm_num) (by decide)

theorem eligibleCell_isOk_of_patOk {pat : Option String} (h : patOk pat = true)
    (c : Cell) : ∃ b, eligibleCell pat c = Except.ok b := by
  cases pat with
  | none => exact ⟨true, rfl⟩
  | some s =>
    cases c with
    | str v =>
      cases hp : reParse s with
      | error m => simp [patOk, hp] at h
      | ok r => exact ⟨matchAtoms r.atoms r.anchorEnd v.data, by simp [eligibleCell, reMatch, hp]⟩
    | num n => exact ⟨false, rfl⟩
    | boolV b => exact ⟨false, rfl⟩
    | null => exact ⟨false, rfl⟩

theorem processCells_prob_zero {rng : Nat → ℚ} (hr0 : ∀ k, 0 ≤ rng k)
    {pat : Option String} (hp : patOk pat = true) (col : String) :
    ∀ (cells : List Cell) (i k : Nat),
      (processCells col 0 pat rng cells i k).cells = cells ∧
      (processCells col 0 pat rng cells i k).err = none := by
  intro cells
  induction cells with
  | nil => intro i k; simp [processCells]
  | cons c rest ih =>
    intro i k
    obtain ⟨b, hb⟩ := eligibleCell_isOk_of_patOk hp c
    have hnlt : ¬ rng k < 0 := not_lt.mpr (hr0 k)
    obtain ⟨h1, h2⟩ := ih (i + 1) (k + 1)
    obtain ⟨h1', h2'⟩ := ih (i + 1) k
    cases b with
    | false => simp [processCells, hb, h1', h2']
    | true => simp [processCells, hb, hnlt, h1, h2]

theorem processColumns_prob_zero {rng : Nat → ℚ} (hr0 : ∀ k, 0 ≤ rng k)
    {pat : Option String} (hp : patOk pat = true) :
    ∀ (cols : List String) (t : Table) (k : Nat),
      (processColumns 0 pat rng cols t k).table = t ∧
      (processColumns 0 pat rng cols t k).err = none := by
  intro cols
  induction cols with
  | nil => intro t k; simp [processColumns]
  | cons c rest ih =>
    intro t k
    cases hg : getCol t c with
    | none =>
      obtain ⟨h1, h2⟩ := ih t k
      simp [processColumns, hg, h1, h2]
    | some cells =>
      obtain ⟨hc1, hc2⟩ := processCells_prob_zero hr0 hp c cells 0 k
      obtain ⟨h1, h2⟩ := ih t ((processCells c 0 pat rng cells 0 k).k)
      rw [← setCol_getCol hg] at h1
      simp only [processColumns, hg, hc2, hc1]
      rw [setCol_getCol hg] at h1 ⊢
      exact ⟨h1, h2⟩

/-- C2: with probability 0.0 the call is a no-op: it returns the input table
and leaves the data argument unchanged, whatever the (well-formed) pattern and
column selection. -/
theorem inject_nulls_prob_zero_noop (t : Table) (pat : Option String)
    (cols : Option (List String)) (rng : Nat → ℚ) (hr : RngOk rng)
    (hpat : patOk pat = true) :
    (inject_nulls (PyData.table t) 0 pat cols rng).result = Outcome.ok t ∧
    (inject_nulls (PyData.table t) 0 pat cols rng).state = PyData.table t := by
  obtain ⟨h1, h2⟩ :=
    processColumns_prob_zero (fun k => (hr k).1) hpat (resolveCols cols t) t 0
  have hp : (0 : ℚ) ≤ 0 ∧ (0 : ℚ) ≤ 1 := by norm_num
  constructor <;> simp [inject_nulls, hp, h1, h2]

theorem inject_nulls_prob_zero_noop_witness :
    (inject_nulls (PyData.table [("A", [Cell.num 1]), ("B", [Cell.str "x"])])
        0 (some "^a") (some ["A", "Z"]) (fun _ => 0)).result =
      Outcome.ok [("A", [Cell.num 1]), ("B", [Cell.str "x"])] ∧
    (inject_nulls (PyData.table [("A", [Cell.num 1]), ("B", [Cell.str "x"])])
        0 (some "^a") (some ["A", "Z"]) (fun _ => 0)).state =
      PyData.table [("A", [Cell.num 1]), ("B", [Cell.str "x"])] :=
  inject_nulls_prob_zero_noop [("A", [Cell.num 1]), ("B", [Cell.str "x"])]
    (some "^a") (some ["A", "Z"]) (fun _ => 0) (fun _ => by norm_num) (by decide)

/-- C3: arguments are validated before anything is touched: a non-DataFrame
data argument raises TypeError, and a DataFrame with a probability outside
[0,1] raises ValueError; in both cases the data argument is unmutated and no
cell was visited or logged. -/
theorem inject_nulls_validates_first (d : PyData) (p : ℚ) (pat : Option String)
    (cols : Option (List String)) (rng : Nat → ℚ) :
    (d = PyData.other →
      inject_nulls d p pat cols rng =
        ⟨Outcome.raised (PyErr.typeError typeMsg), d, [], []⟩) ∧
    (∀ t, d = PyData.table t → ¬(0 ≤ p ∧ p ≤ 1) →
      inject_nulls d p pat cols rng =
        ⟨Outcome.raised (PyErr.valueError rangeMsg), d, [], []⟩) := by
  constructor
  · intro h; subst h; rfl
  · intro t h hp; subst h; simp [inject_nulls, hp]

theorem inject_nulls_validates_first_witness :
    (inject_nulls PyData.other (1/2) none none (fun _ => 0) =
      ⟨Outcome.raised (PyErr.typeError typeMsg), PyData.other, [], []⟩) ∧
    (inject_nulls (PyData.table [("A", [Cell.num 1])]) (3/2) none none (fun _ => 0) =
      ⟨Outcome.raised (PyErr.valueError rangeMsg),
        PyData.table [("A", [Cell.num 1])], [], []⟩) :=
  ⟨(inject_nulls_validates_first PyData.other (1/2) none none (fun _ => 0)).1 rfl,
   (inject_nulls_validates_first (PyData.table [("A", [Cell.num 1])]) (3/2) none none
      (fun _ => 0)).2 _ rfl (fun h => absurd h.2 (by norm_num))⟩

theorem cellKeep_refl_list (l : List Cell) : List.Forall₂ cellKeep l l :=
  List.forall₂_same.mpr (fun _ _ => fun _ => rfl)

theorem TableNS_refl (t : Table) : TableNS t t :=
  List.forall₂_same.mpr (fun _ _ => ⟨rfl, cellKeep_refl_list _⟩)

theorem cellKeep_list_trans {l₁ l₂ l₃ : List Cell}
    (h₁ : List.Forall₂ cellKeep l₁ l₂) (h₂ : List.Forall₂ cellKeep l₂ l₃) :
    List.Forall₂ cellKeep l₁ l₃ := by
  induction h₁ generalizing l₃ with
  | nil => cases h₂; constructor
  | cons hab htl ih =>
    cases h₂ with
    | cons hbc htl₂ =>
      refine List.Forall₂.cons ?_ (ih htl₂)
      intro ha
      have hba := hab ha
      rw [hba] at hbc
      exact hbc ha

theorem TableNS_trans {t₁ t₂ t₃ : Table} (h₁ : TableNS t₁ t₂) (h₂ : TableNS t₂ t₃) :
    TableNS t₁ t₃ := by
  induction h₁ generalizing t₃ with
  | nil => cases h₂; constructor
  | cons hab htl ih =>
    cases h₂ with
    | cons hbc htl₂ =>
      exact List.Forall₂.cons ⟨hab.1.trans hbc.1, cellKeep_list_trans hab.2 hbc.2⟩ (ih htl₂)

theorem processCells_cellKeep (col : String) (p : ℚ) (pstr : String) (rng : Nat → ℚ) :
    ∀ (cells : List Cell) (i k : Nat),
      List.Forall₂ cellKeep cells (processCells col p (some pstr) rng cells i k).cells := by
  intro cells
  induction cells with
  | nil => intro i k; constructor
  | cons c rest ih =>
    intro i k
    cases hel : eligibleCell (some pstr) c with
    | error m => simp only [processCells, hel]; exact cellKeep_refl_list _
    | ok b =>
      cases b with
      | false =>
        simp only [processCells, hel]
        exact List.Forall₂.cons (fun _ => rfl) (ih (i + 1) k)
      | true =>
        cases c with
        | str s =>
          simp only [processCells, hel]
          by_cases hlt : rng k < p
          · simp only [if_pos hlt]
            refine List.Forall₂.cons ?_ (ih (i + 1) (k + 1))
            intro h
            exact absurd h (by simp [Cell.isStr])
          · simp only [if_neg hlt]
            exact List.Forall₂.cons (fun _ => rfl) (ih (i + 1) (k + 1))
        | num n => simp [eligibleCell] at hel
        | boolV b => simp [eligibleCell] at hel
        | null => simp [eligibleCell] at hel

theorem setCol_tableNS {c : String} {cells out : List Cell}
    (hns : List.Forall₂ cellKeep cells out) :
    ∀ {t : Table}, getCol t c = some cells → TableNS t (setCol t c out) := by
  intro t
  induction t with
  | nil => simp [getCol]
  | cons hd tl ih =>
    obtain ⟨n, cs⟩ := hd
    intro hg
    by_cases h : n = c
    · subst h
      have hcs : cells = cs := by simpa [getCol] using hg.symm
      subst hcs
      rw [setCol_cons_pos]
      exact List.Forall₂.cons ⟨rfl, hns⟩ (TableNS_refl tl)
    · have hgtl : getCol tl c = some cells := by simpa [getCol, h] using hg
      rw [setCol_cons_neg h]
      exact List.Forall₂.cons ⟨rfl, cellKeep_refl_list cs⟩ (ih hgtl)

theorem processColumns_tableNS (p : ℚ) (pstr : String) (rng : Nat → ℚ) :
    ∀ (cols : List String) (t : Table) (k : Nat),
      TableNS t (processColumns p (some pstr) rng cols t k).table := by
  intro cols
  induction cols with
  | nil => intro t k; exact TableNS_refl t
  | cons c rest ih =>
    intro t k
    cases hg : getCol t c with
    | none => simpa [processColumns, hg] using ih t k
    | some cells =>
      have hstep : TableNS t (setCol t c ((processCells c p (some pstr) rng cells 0 k).cells)) :=
        setCol_tableNS (processCells_cellKeep c p pstr rng cells 0 k) hg
      cases he : (processCells c p (some pstr) rng cells 0 k).err with
      | some m => simpa [processColumns, hg, he] using hstep
      | none =>
        simp only [processColumns, hg, he]
        exact TableNS_trans hstep (ih _ _)

/-- C4: with a pattern present, only string cells are eligible (a non-string
cell is never modified, whatever the probability, samples and column
selection), and the eligibility test is the anchored match-at-start: for
values apple, banana, avocado, pattern caret-a and probability 1, apple and
avocado become the null marker while banana is unchanged. -/
theorem inject_nulls_pattern_eligibility (rng : Nat → ℚ) (hr : RngOk rng) :
    (∀ (t : Table) (p : ℚ) (pstr : String) (cols : Option (List String)) (t' : Table),
        (inject_nulls (PyData.table t) p (some pstr) cols rng).state = PyData.table t' →
        TableNS t t') ∧
    (inject_nulls (PyData.table fruitT) 1 (some "^a") none rng).result =
      Outcome.ok [("fruit", [Cell.null, Cell.str "banana", Cell.null])] := by
  constructor
  · intro t p pstr cols t' hstate
    by_cases hp : 0 ≤ p ∧ p ≤ 1
    · cases he : (processColumns p (some pstr) rng (resolveCols cols t) t 0).err with
      | some m =>
        simp only [inject_nulls, if_pos hp, he] at hstate
        cases hstate
        exact processColumns_tableNS p pstr rng _ t 0
      | none =>
        simp only [inject_nulls, if_pos hp, he] at hstate
        cases hstate
        exact processColumns_tableNS p pstr rng _ t 0
    · simp only [inject_nulls, if_neg hp] at hstate
      cases hstate
      exact TableNS_refl _
  · have h0 : rng 0 < 1 := (hr 0).2
    have h1 : rng 1 < 1 := (hr 1).2
    have e1 : eligibleCell (some "^a") (Cell.str "apple") = Except.ok true := rfl
    have e2 : eligibleCell (some "^a") (Cell.str "banana") = Except.ok false := rfl
    have e3 : eligibleCell (some "^a") (Cell.str "avocado") = Except.ok true := rfl
    simp [inject_nulls, resolveCols, fruitT, tableCols, processColumns, processCells,
      getCol, setCol, e1, e2, e3, h0, h1]

theorem inject_nulls_pattern_eligibility_witness :
    TableNS [("c", [Cell.num 7])] [("c", [Cell.num 7])] ∧
    (inject_nulls (PyData.table fruitT) 1 (some "^a") none (fun _ => 0)).result =
      Outcome.ok [("fruit", [Cell.null, Cell.str "banana", Cell.null])] :=
  ⟨(inject_nulls_pattern_eligibility (fun _ => 0) (fun _ => by norm_num)).1
      [("c", [Cell.num 7])] 1 "b" none [("c", [Cell.num 7])] (by decide),
   (inject_nulls_pattern_eligibility (fun _ => 0) (fun _ => by norm_num)).2⟩

theorem unchangedOutside_refl (sel : List String) (t : Table) :
    UnchangedOutside sel t t :=
  List.forall₂_same.mpr (fun _ _ => fun _ => rfl)

theorem unchangedOutside_trans {sel : List String} {t₁ t₂ t₃ : Table}
    (h₁ : UnchangedOutside sel t₁ t₂) (h₂ : UnchangedOutside sel t₂ t₃) :
    UnchangedOutside sel t₁ t₃ := by
  induction h₁ generalizing t₃ with
  | nil => cases h₂; constructor
  | cons hab htl ih =>
    cases h₂ with
    | cons hbc htl₂ =>
      refine List.Forall₂.cons ?_ (ih htl₂)
      intro ha
      have hba := hab ha
      rw [hba] at hbc
      exact hbc ha

theorem setCol_unchangedOutside {sel : List String} {c : String} (hc : c ∈ sel)
    (out : List Cell) :
    ∀ (t : Table), UnchangedOutside sel t (setCol t c out) := by
  intro t
  induction t with
  | nil => constructor
  | cons hd tl ih =>
    obtain ⟨n, cs⟩ := hd
    by_cases h : n = c
    · subst h
      rw [setCol_cons_pos]
      exact List.Forall₂.cons (fun hmem => absurd hc hmem) (unchangedOutside_refl sel tl)
    · rw [setCol_cons_neg h]
      exact List.Forall₂.cons (fun _ => rfl) ih

theorem processColumns_unchangedOutside (sel : List String) (p : ℚ)
    (pat : Option String) (rng : Nat → ℚ) :
    ∀ (cols : List String) (t : Table) (k : Nat), (∀ c ∈ cols, c ∈ sel) →
      UnchangedOutside sel t (processColumns p pat rng cols t k).table := by
  intro cols
  induction cols with
  | nil => intro t k _; exact unchangedOutside_refl sel t
  | cons c rest ih =>
    intro t k hsub
    have hc : c ∈ sel := hsub c (List.mem_cons_self c rest)
    have hrest : ∀ x ∈ rest, x ∈ sel := fun x hx => hsub x (List.mem_cons_of_mem c hx)
    cases hg : getCol t c with
    | none => simpa [processColumns, hg] using ih t k hrest
    | some cells =>
      have hstep := setCol_unchangedOutside hc ((processCells c p pat rng cells 0 k).cells) t
      cases he : (processCells c p pat rng cells 0 k).err with
      | some m => simpa [processColumns, hg, he] using hstep
      | none =>
        simp only [processColumns, hg, he]
        exact unchangedOutside_trans hstep (ih _ _ hrest)

/-- C5: under a column restriction, every column whose name is not among the
trimmed restriction names is untouched, for every probability, pattern and
sample stream; concretely, on columns A, B, C with restriction A, C and
probability 1, column B is untouched while A and C become fully null. -/
theorem inject_nulls_column_restriction (rng : Nat → ℚ) (hr : RngOk rng) :
    (∀ (t : Table) (p : ℚ) (pat : Option String) (cs : List String) (t' : Table),
        (inject_nulls (PyData.table t) p pat (some cs) rng).state = PyData.table t' →
        UnchangedOutside (cs.map pyStrip) t t') ∧
    (inject_nulls (PyData.table exABC) 1 none (some ["A", "C"]) rng).result =
      Outcome.ok [("A", [Cell.null, Cell.null]), ("B", [Cell.str "x", Cell.num 3]),
        ("C", [Cell.null, Cell.null])] := by
  constructor
  · intro t p pat cs t' hstate
    by_cases hp : 0 ≤ p ∧ p ≤ 1
    · have hgen :=
        processColumns_unchangedOutside (cs.map pyStrip) p pat rng
          (resolveCols (some cs) t) t 0 (fun c hc => by simpa [resolveCols] using hc)
      cases he : (processColumns p pat rng (resolveCols (some cs) t) t 0).err with
      | some m =>
        simp only [inject_nulls, if_pos hp, he] at hstate
        cases hstate
        exact hgen
      | none =>
        simp only [inject_nulls, if_pos hp, he] at hstate
        cases hstate
        exact hgen
    · simp only [inject_nulls, if_neg hp] at hstate
      cases hstate
      exact unchangedOutside_refl _ _
  · have hres : resolveCols (some ["A", "C"]) exABC = ["A", "C"] := by decide
    have hnull : nullifyCols ["A", "C"] exABC =
        [("A", [Cell.null, Cell.null]), ("B", [Cell.str "x", Cell.num 3]),
          ("C", [Cell.null, Cell.null])] := by decide
    obtain ⟨h1, h2⟩ := processColumns_prob_one hr ["A", "C"] exABC 0 (by decide)
    have hp : (0 : ℚ) ≤ 1 ∧ (1 : ℚ) ≤ 1 := by norm_num
    simp [inject_nulls, hres, hp, h1, h2, hnull]

theorem inject_nulls_column_restriction_witness :
    UnchangedOutside (["A", "C"].map pyStrip) exABC
      [("A", [Cell.null, Cell.null]), ("B", [Cell.str "x", Cell.num 3]),
        ("C", [Cell.null, Cell.null])] ∧
    (inject_nulls (PyData.table exABC) 1 none (some ["A", "C"]) (fun _ => 0)).result =
      Outcome.ok [("A", [Cell.null, Cell.null]), ("B", [Cell.str "x", Cell.num 3]),
        ("C", [Cell.null, Cell.null])] :=
  ⟨(inject_nulls_column_restriction (fun _ => 0) (fun _ => by norm_num)).1
      exABC 1 none ["A", "C"] _ (by decide),
   (inject_nulls_column_restriction (fun _ => 0) (fun _ => by norm_num)).2⟩

theorem processCells_err_none_of_patOk {pat : Option String} (hpat : patOk pat = true)
    (col : String) (p : ℚ) (rng : Nat → ℚ) :
    ∀ (cells : List Cell) (i k : Nat),
      (processCells col p pat rng cells i k).err = none := by
  intro cells
  induction cells with
  | nil => intro i k; simp [processCells]
  | cons c rest ih =>
    intro i k
    obtain ⟨b, hb⟩ := eligibleCell_isOk_of_patOk hpat c
    cases b with
    | false => simp [processCells, hb, ih (i + 1) k]
    | true =>
      by_cases hlt : rng k < p <;> simp [processCells, hb, hlt, ih (i + 1) (k + 1)]

theorem processColumns_err_none_of_patOk {pat : Option String} (hpat : patOk pat = true)
    (p : ℚ) (rng : Nat → ℚ) :
    ∀ (cols : List String) (t : Table) (k : Nat),
      (processColumns p pat rng cols t k).err = none := by
  intro cols
  induction cols with
  | nil => intro t k; simp [processColumns]
  | cons c rest ih =>
    intro t k
    cases hg : getCol t c with
    | none => simp [processColumns, hg, ih t k]
    | some cells =>
      simp [processColumns, hg, processCells_err_none_of_patOk hpat c p rng cells 0 k, ih]

theorem processColumns_skip_unknown (p : ℚ) (pat : Option String) (rng : Nat → ℚ)
    (z : String) :
    ∀ (l₁ l₂ : List String) (t : Table) (k : Nat), z ∉ tableCols t →
      (processColumns p pat rng (l₁ ++ z :: l₂) t k).table =
          (processColumns p pat rng (l₁ ++ l₂) t k).table ∧
      (processColumns p pat rng (l₁ ++ z :: l₂) t k).k =
          (processColumns p pat rng (l₁ ++ l₂) t k).k ∧
      (processColumns p pat rng (l₁ ++ z :: l₂) t k).visits =
          (processColumns p pat rng (l₁ ++ l₂) t k).visits ∧
      (processColumns p pat rng (l₁ ++ z :: l₂) t k).err =
          (processColumns p pat rng (l₁ ++ l₂) t k).err := by
  intro l₁
  induction l₁ with
  | nil =>
    intro l₂ t k hz
    have hg : getCol t z = none := getCol_eq_none.mpr hz
    simp [processColumns, hg]
  | cons c l₁ ih =>
    intro l₂ t k hz
    cases hg : getCol t c with
    | none => simpa [processColumns, hg] using ih l₂ t k hz
    | some cells =>
      cases he : (processCells c p pat rng cells 0 k).err with
      | some m => simp [processColumns, hg, he]
      | none =>
        have hz' : z ∉ tableCols (setCol t c ((processCells c p pat rng cells 0 k).cells)) := by
          rwa [tableCols_setCol]
        obtain ⟨h1, h2, h3, h4⟩ := ih l₂ _ ((processCells c p pat rng cells 0 k).k) hz'
        simp [processColumns, hg, he, h1, h2, h3, h4]

theorem processColumns_warn_mem (p : ℚ) {pat : Option String} (hpat : patOk pat = true)
    (rng : Nat → ℚ) (z : String) :
    ∀ (l₁ l₂ : List String) (t : Table) (k : Nat), z ∉ tableCols t →
      LogEvent.warnMissing z ∈ (processColumns p pat rng (l₁ ++ z :: l₂) t k).log := by
  intro l₁
  induction l₁ with
  | nil =>
    intro l₂ t k hz
    have hg : getCol t z = none := getCol_eq_none.mpr hz
    simp [processColumns, hg]
  | cons c l₁ ih =>
    intro l₂ t k hz
    cases hg : getCol t c with
    | none =>
      simp only [List.cons_append, processColumns, hg]
      exact List.mem_cons_of_mem _ (ih l₂ t k hz)
    | some cells =>
      have he := processCells_err_none_of_patOk hpat c p rng cells 0 k
      have hz' : z ∉ tableCols (setCol t c ((processCells c p pat rng cells 0 k).cells)) := by
        rwa [tableCols_setCol]
      simp only [List.cons_append, processColumns, hg, he]
      exact List.mem_append_right _ (ih l₂ _ _ hz')

/-- C6: a resolved column name that is not in the table is not an error: the
call behaves exactly as if the name had not been supplied (same outcome, same
final table state, same sampled cells), and in an error-free run a
warning-level diagnostic for the missing name is logged. -/
theorem inject_nulls_unknown_column_skipped (t : Table) (p : ℚ) (pat : Option String)
    (rng : Nat → ℚ) (l₁ l₂ : List String) (z : String)
    (hz : pyStrip z ∉ tableCols t) :
    ((inject_nulls (PyData.table t) p pat (some (l₁ ++ z :: l₂)) rng).result =
        (inject_nulls (PyData.table t) p pat (some (l₁ ++ l₂)) rng).result ∧
      (inject_nulls (PyData.table t) p pat (some (l₁ ++ z :: l₂)) rng).state =
        (inject_nulls (PyData.table t) p pat (some (l₁ ++ l₂)) rng).state ∧
      (inject_nulls (PyData.table t) p pat (some (l₁ ++ z :: l₂)) rng).visits =
        (inject_nulls (PyData.table t) p pat (some (l₁ ++ l₂)) rng).visits) ∧
    (0 ≤ p ∧ p ≤ 1 → patOk pat = true →
      LogEvent.warnMissing (pyStrip z) ∈
        (inject_nulls (PyData.table t) p pat (some (l₁ ++ z :: l₂)) rng).log) := by
  have hres : resolveCols (some (l₁ ++ z :: l₂)) t =
      l₁.map pyStrip ++ pyStrip z :: l₂.map pyStrip := by
    simp [resolveCols]
  have hres₂ : resolveCols (some (l₁ ++ l₂)) t =
      l₁.map pyStrip ++ l₂.map pyStrip := by
    simp [resolveCols]
  constructor
  · by_cases hp : 0 ≤ p ∧ p ≤ 1
    · obtain ⟨h1, h2, h3, h4⟩ :=
        processColumns_skip_unknown p pat rng (pyStrip z) (l₁.map pyStrip)
          (l₂.map pyStrip) t 0 hz
      cases he : (processColumns p pat rng (l₁.map pyStrip ++ l₂.map pyStrip) t 0).err with
      | none =>
        rw [he] at h4
        simp [inject_nulls, hres, hres₂, hp, he, h4, h1, h3]
      | some m =>
        rw [he] at h4
        simp [inject_nulls, hres, hres₂, hp, he, h4, h1, h3]
    · simp [inject_nulls, hp]
  · intro hp hpat
    have hmem :=
      processColumns_warn_mem p hpat rng (pyStrip z) (l₁.map pyStrip)
        (l₂.map pyStrip) t 0 hz
    have he :=
      processColumns_err_none_of_patOk hpat p rng
        (l₁.map pyStrip ++ pyStrip z :: l₂.map pyStrip) t 0
    simp only [inject_nulls, if_pos hp, hres, he]
    exact hmem

theorem inject_nulls_unknown_column_skipped_witness :
    ((inject_nulls (PyData.table [("A", [Cell.num 1]), ("B", [Cell.num 2])])
          1 none (some (["Z"] ++ ["A", "B"])) (fun _ => 0)).result =
        (inject_nulls (PyData.table [("A", [Cell.num 1]), ("B", [Cell.num 2])])
          1 none (some (["A", "B"])) (fun _ => 0)).result ∧
      (inject_nulls (PyData.table [("A", [Cell.num 1]), ("B", [Cell.num 2])])
          1 none (some (["Z"] ++ ["A", "B"])) (fun _ => 0)).state =
        (inject_nulls (PyData.table [("A", [Cell.num 1]), ("B", [Cell.num 2])])
          1 none (some (["A", "B"])) (fun _ => 0)).state ∧
      (inject_nulls (PyData.table [("A", [Cell.num 1]), ("B", [Cell.num 2])])
          1 none (some (["Z"] ++ ["A", "B"])) (fun _ => 0)).visits =
        (inject_nulls (PyData.table [("A", [Cell.num 1]), ("B", [Cell.num 2])])
          1 none (some (["A", "B"])) (fun _ => 0)).visits) ∧
    (0 ≤ (1 : ℚ) ∧ (1 : ℚ) ≤ 1 → patOk none = true →
      LogEvent.warnMissing (pyStrip "Z") ∈
        (inject_nulls (PyData.table [("A", [Cell.num 1]), ("B", [Cell.num 2])])
          1 none (some (["Z"] ++ ["A", "B"])) (fun _ => 0)).log) :=
  inject_nulls_unknown_column_skipped [("A", [Cell.num 1]), ("B", [Cell.num 2])]
    1 none (fun _ => 0) [] ["A", "B"] "Z" (by decide)

theorem processCells_visits_fst (col : String) (p : ℚ) (pat : Option String)
    (rng : Nat → ℚ) :
    ∀ (cells : List Cell) (i k : Nat),
      ∀ x ∈ (processCells col p pat rng cells i k).visits, x.1 = col := by
  intro cells
  induction cells with
  | nil => intro i k x hx; simp [processCells] at hx
  | cons c rest ih =>
    intro i k x hx
    cases hel : eligibleCell pat c with
    | error m => simp [processCells, hel] at hx
    | ok b =>
      cases b with
      | false =>
        simp only [processCells, hel] at hx
        exact ih (i + 1) k x hx
      | true =>
        by_cases hlt : rng k < p <;>
        · simp only [processCells, hel, hlt, if_pos, if_neg, if_true, if_false] at hx
          rcases List.mem_cons.mp hx with h | h
          · rw [h]
          · exact ih (i + 1) (k + 1) x h

theorem processCells_visits_sublist (col : String) (p : ℚ) (pat : Option String)
    (rng : Nat → ℚ) :
    ∀ (cells : List Cell) (i k : Nat),
      (processCells col p pat rng cells i k).visits.Sublist
        ((List.range' i cells.length).map (fun j => (col, j))) := by
  intro cells
  induction cells with
  | nil => intro i k; simp [processCells]
  | cons c rest ih =>
    intro i k
    rw [List.length_cons, List.range'_succ, List.map_cons]
    cases hel : eligibleCell pat c with
    | error m => simp [processCells, hel]
    | ok b =>
      cases b with
      | false =>
        simp only [processCells, hel]
        exact (ih (i + 1) k).cons _
      | true =>
        by_cases hlt : rng k < p
        · simp only [processCells, hel, if_pos hlt]
          exact (ih (i + 1) (k + 1)).cons₂ _
        · simp only [processCells, hel, if_neg hlt]
          exact (ih (i + 1) (k + 1)).cons₂ _

theorem processCells_visits_nodup (col : String) (p : ℚ) (pat : Option String)
    (rng : Nat → ℚ) (cells : List Cell) (i k : Nat) :
    (processCells col p pat rng cells i k).visits.Nodup := by
  refine (processCells_visits_sublist col p pat rng cells i k).nodup ?_
  refine List.Nodup.map (fun a b h => congrArg Prod.snd h) ?_
  exact List.nodup_range' _ _

theorem processColumns_visits_fst (p : ℚ) (pat : Option String) (rng : Nat → ℚ) :
    ∀ (cols : List String) (t : Table) (k : Nat),
      ∀ x ∈ (processColumns p pat rng cols t k).visits, x.1 ∈ cols := by
  intro cols
  induction cols with
  | nil => intro t k x hx; simp [processColumns] at hx
  | cons c rest ih =>
    intro t k x hx
    cases hg : getCol t c with
    | none =>
      simp only [processColumns, hg] at hx
      exact List.mem_cons_of_mem c (ih t k x hx)
    | some cells =>
      cases he : (processCells c p pat rng cells 0 k).err with
      | some m =>
        simp only [processColumns, hg, he] at hx
        rw [processCells_visits_fst c p pat rng cells 0 k x hx]
        exact List.mem_cons_self c rest
      | none =>
        simp only [processColumns, hg, he] at hx
        rcases List.mem_append.mp hx with h | h
        · rw [processCells_visits_fst c p pat rng cells 0 k x h]
          exact List.mem_cons_self c rest
        · exact List.mem_cons_of_mem c (ih _ _ x h)

theorem processColumns_visits_nodup (p : ℚ) (pat : Option String) (rng : Nat → ℚ) :
    ∀ (cols : List String) (t : Table) (k : Nat), cols.Nodup →
      (processColumns p pat rng cols t k).visits.Nodup := by
  intro cols
  induction cols with
  | nil => intro t k _; simp [processColumns]
  | cons c rest ih =>
    intro t k hnd
    have hcr : c ∉ rest := (List.nodup_cons.mp hnd).1
    have hrest : rest.Nodup := (List.nodup_cons.mp hnd).2
    cases hg : getCol t c with
    | none =>
      simp only [processColumns, hg]
      exact ih t k hrest
    | some cells =>
      cases he : (processCells c p pat rng cells 0 k).err with
      | some m =>
        simp only [processColumns, hg, he]
        exact processCells_visits_nodup c p pat rng cells 0 k
      | none =>
        simp only [processColumns, hg, he]
        refine List.Nodup.append (processCells_visits_nodup c p pat rng cells 0 k)
          (ih _ _ hrest) ?_
        intro x hx hx'
        have h1 : x.1 = c := processCells_visits_fst c p pat rng cells 0 k x hx
        have h2 : x.1 ∈ rest := processColumns_visits_fst p pat rng rest _ _ x hx'
        rw [h1] at h2
        exact hcr h2

/-- C7 (amended): when the resolved column names are pairwise distinct — as
they are whenever `columns` is absent and the table's column names are unique —
every cell is sampled at most once: the sequence of sampled cell positions
(column name, row index), which the call visits in resolved-column order and
then row order, contains no duplicate position.  (With a duplicated name in
`columns` the same cells are visited and sampled once per occurrence, which is
what the counterexample exhibits.) -/
theorem inject_nulls_sampled_at_most_once (t : Table) (p : ℚ) (pat : Option String)
    (cols : Option (List String)) (rng : Nat → ℚ)
    (hnd : (resolveCols cols t).Nodup) :
    (inject_nulls (PyData.table t) p pat cols rng).visits.Nodup := by
  by_cases hp : 0 ≤ p ∧ p ≤ 1
  · cases he : (processColumns p pat rng (resolveCols cols t) t 0).err with
    | some m =>
      simp only [inject_nulls, if_pos hp, he]
      exact processColumns_visits_nodup p pat rng _ t 0 hnd
    | none =>
      simp only [inject_nulls, if_pos hp, he]
      exact processColumns_visits_nodup p pat rng _ t 0 hnd
  · simp [inject_nulls, hp]

theorem inject_nulls_sampled_at_most_once_witness :
    (inject_nulls (PyData.table [("A", [Cell.num 0]), ("B", [Cell.str "x"])])
        1 none none (fun _ => 0)).visits.Nodup :=
  inject_nulls_sampled_at_most_once [("A", [Cell.num 0]), ("B", [Cell.str "x"])]
    1 none none (fun _ => 0) (by decide)

/-- C7 counterexample: with `columns = ["A", "A"]` the single cell of column A
is visited and randomly sampled twice in one call, so the visit sequence of the
claim is not duplicate-free for every input. -/
theorem inject_nulls_sampled_twice_counterexample :
    (inject_nulls (PyData.table [("A", [Cell.num 0])]) 1 none (some ["A", "A"])
        (fun _ => 0)).visits = [("A", 0), ("A", 0)] ∧
    ¬ (inject_nulls (PyData.table [("A", [Cell.num 0])]) 1 none (some ["A", "A"])
        (fun _ => 0)).visits.Nodup := by
  constructor
  · decide
  · decide

theorem processCells_badpat {pstr m : String} (hm : reParse pstr = Except.error m)
    (col : String) (p : ℚ) (rng : Nat → ℚ) :
    ∀ (cells : List Cell) (i k : Nat),
      processCells col p (some pstr) rng cells i k =
        ⟨cells, k, [], [], if cells.any Cell.isStr then some m else none⟩ := by
  intro cells
  induction cells with
  | nil => intro i k; simp [processCells]
  | cons c rest ih =>
    intro i k
    cases c with
    | str s =>
      have hel : eligibleCell (some pstr) (Cell.str s) = Except.error m := by
        simp [eligibleCell, reMatch, hm]
      simp [processCells, hel, Cell.isStr]
    | num n =>
      have hel : eligibleCell (some pstr) (Cell.num n) = Except.ok false := rfl
      simp [processCells, hel, ih (i + 1) k, Cell.isStr]
    | boolV b =>
      have hel : eligibleCell (some pstr) (Cell.boolV b) = Except.ok false := rfl
      simp [processCells, hel, ih (i + 1) k, Cell.isStr]
    | null =>
      have hel : eligibleCell (some pstr) Cell.null = Except.ok false := rfl
      simp [processCells, hel, ih (i + 1) k, Cell.isStr]

theorem processColumns_badpat {pstr m : String} (hm : reParse pstr = Except.error m)
    (p : ℚ) (rng : Nat → ℚ) :
    ∀ (cols : List String) (t : Table) (k : Nat),
      (processColumns p (some pstr) rng cols t k).table = t ∧
      (processColumns p (some pstr) rng cols t k).visits = [] ∧
      (processColumns p (some pstr) rng cols t k).err =
        (if cols.any (hasStrCol t) then some m else none) := by
  intro cols
  induction cols with
  | nil => intro t k; simp [processColumns]
  | cons c rest ih =>
    intro t k
    cases hg : getCol t c with
    | none =>
      obtain ⟨h1, h2, h3⟩ := ih t k
      have hsc : hasStrCol t c = false := by simp [hasStrCol, hg]
      simp [processColumns, hg, h1, h2, h3, hsc]
    | some cells =>
      have hrc := processCells_badpat hm c p rng cells 0 k
      have hset : setCol t c cells = t := setCol_getCol hg
      have hsc : hasStrCol t c = cells.any Cell.isStr := by simp [hasStrCol, hg]
      cases hany : cells.any Cell.isStr with
      | true =>
        simp [processColumns, hg, hrc, hany, hset, hsc]
      | false =>
        obtain ⟨h1, h2, h3⟩ := ih t k
        simp [processColumns, hg, hrc, hany, hset, hsc, h1, h2, h3]

/-- C8: a malformed pattern that is reached (some processed column holds a
string cell, which is the only way the matcher runs) makes inject_nulls log
the failure at error level and re-raise the same error to the caller; nothing
is returned, no cell was sampled, and the table is unmutated. -/
theorem inject_nulls_pattern_error_reraised (t : Table) (p : ℚ) (pstr m : String)
    (cols : Option (List String)) (rng : Nat → ℚ) (hp : 0 ≤ p ∧ p ≤ 1)
    (hm : reParse pstr = Except.error m)
    (hs : (resolveCols cols t).any (hasStrCol t) = true) :
    (inject_nulls (PyData.table t) p (some pstr) cols rng).result =
      Outcome.raised (PyErr.reError m) ∧
    (inject_nulls (PyData.table t) p (some pstr) cols rng).state = PyData.table t ∧
    LogEvent.errorLogged m ∈ (inject_nulls (PyData.table t) p (some pstr) cols rng).log ∧
    (inject_nulls (PyData.table t) p (some pstr) cols rng).visits = [] := by
  obtain ⟨h1, h2, h3⟩ := processColumns_badpat hm p rng (resolveCols cols t) t 0
  rw [hs] at h3
  simp only [if_true] at h3
  refine ⟨?_, ?_, ?_, ?_⟩ <;> simp [inject_nulls, hp, h1, h2, h3]

theorem inject_nulls_pattern_error_reraised_witness :
    (inject_nulls (PyData.table [("c", [Cell.str "x"])]) (1/2) (some "(") none
        (fun _ => 0)).result =
      Outcome.raised (PyErr.reError "unbalanced or unsupported pattern construct") ∧
    (inject_nulls (PyData.table [("c", [Cell.str "x"])]) (1/2) (some "(") none
        (fun _ => 0)).state = PyData.table [("c", [Cell.str "x"])] ∧
    LogEvent.errorLogged "unbalanced or unsupported pattern construct" ∈
      (inject_nulls (PyData.table [("c", [Cell.str "x"])]) (1/2) (some "(") none
        (fun _ => 0)).log ∧
    (inject_nulls (PyData.table [("c", [Cell.str "x"])]) (1/2) (some "(") none
        (fun _ => 0)).visits = [] :=
  inject_nulls_pattern_error_reraised [("c", [Cell.str "x"])] (1/2) "("
    "unbalanced or unsupported pattern construct" none (fun _ => 0)
    (by norm_num) rfl (by decide)

theorem dropWhile_eq_self_of_pre {α : Type} (p : α → Bool) {x y : List α}
    (hpre : x <+: y) (hy : y.dropWhile p = y) : x.dropWhile p = x := by
  obtain ⟨t, rfl⟩ := hpre
  cases x with
  | nil => rfl
  | cons a x' =>
    rw [List.cons_append] at hy
    by_cases hpa : p a
    · exfalso
      rw [List.dropWhile_cons_of_pos hpa] at hy
      have hle := (List.dropWhile_sublist (l := x' ++ t) p).length_le
      rw [hy] at hle
      simp at hle
    · exact List.dropWhile_cons_of_neg hpa

theorem stripChars_eq (l : List Char) :
    stripChars l = List.rdropWhile Char.isWhitespace (List.dropWhile Char.isWhitespace l) := by
  simp [stripChars, List.rdropWhile]

theorem stripChars_idem (l : List Char) : stripChars (stripChars l) = stripChars l := by
  rw [stripChars_eq, stripChars_eq]
  have hmm : (List.dropWhile Char.isWhitespace l).dropWhile Char.isWhitespace =
      List.dropWhile Char.isWhitespace l := List.dropWhile_idempotent _ _
  have hpre := List.rdropWhile_prefix Char.isWhitespace (List.dropWhile Char.isWhitespace l)
  have hs := dropWhile_eq_self_of_pre Char.isWhitespace hpre hmm
  rw [hs]
  exact List.rdropWhile_idempotent _ _

theorem pyStrip_idem (s : String) : pyStrip (pyStrip s) = pyStrip s :=
  congrArg String.mk (stripChars_idem s.data)

/-- C9: every supplied column name is trimmed of surrounding whitespace before
it is looked up, so supplying already-trimmed names gives the identical call
result, and a padded name selects the column with the trimmed name: with one
column A and the supplied name " A ", probability 1 nullifies column A. -/
theorem inject_nulls_trims_column_names (rng : Nat → ℚ) (hr : RngOk rng) :
    (∀ (d : PyData) (p : ℚ) (pat : Option String) (cs : List String),
        inject_nulls d p pat (some cs) rng =
          inject_nulls d p pat (some (cs.map pyStrip)) rng) ∧
    (inject_nulls (PyData.table [("A", [Cell.num 1])]) 1 none (some [" A "]) rng).result =
      Outcome.ok [("A", [Cell.null])] := by
  constructor
  · intro d p pat cs
    cases d with
    | other => rfl
    | table t =>
      have hmap : List.map pyStrip (List.map pyStrip cs) = List.map pyStrip cs := by
        rw [List.map_map]
        exact List.map_congr_left (fun a _ => pyStrip_idem a)
      simp [inject_nulls, resolveCols, hmap]
  · have hres : resolveCols (some [" A "]) [("A", [Cell.num 1])] = ["A"] := by decide
    have hnull : nullifyCols ["A"] [("A", [Cell.num 1])] = [("A", [Cell.null])] := by decide
    obtain ⟨h1, h2⟩ := processColumns_prob_one hr ["A"] [("A", [Cell.num 1])] 0 (by decide)
    have hp : (0 : ℚ) ≤ 1 ∧ (1 : ℚ) ≤ 1 := by norm_num
    simp [inject_nulls, hres, hp, h1, h2, hnull]

theorem inject_nulls_trims_column_names_witness :
    (inject_nulls (PyData.table [("B", [Cell.num 2])]) 1 none (some [" B ", "B  "])
        (fun _ => 0) =
      inject_nulls (PyData.table [("B", [Cell.num 2])]) 1 none
        (some ([" B ", "B  "].map pyStrip)) (fun _ => 0)) ∧
    (inject_nulls (PyData.table [("A", [Cell.num 1])]) 1 none (some [" A "])
        (fun _ => 0)).result = Outcome.ok [("A", [Cell.null])] :=
  ⟨(inject_nulls_trims_column_names (fun _ => 0) (fun _ => by norm_num)).1
      (PyData.table [("B", [Cell.num 2])]) 1 none [" B ", "B  "],
   (inject_nulls_trims_column_names (fun _ => 0) (fun _ => by norm_num)).2⟩

/-- C10: a present-but-empty columns collection selects no column at all: the
call returns the table unchanged with nothing sampled, logged or mutated, for
every valid probability and every pattern — unlike an absent columns argument,
which processes every column (see the second conjunct: at probability 1 the
two calls differ on a non-empty table). -/
theorem inject_nulls_empty_columns_noop (t : Table) (p : ℚ) (pat : Option String)
    (rng : Nat → ℚ) (hp : 0 ≤ p ∧ p ≤ 1) (hr : RngOk rng) :
    (inject_nulls (PyData.table t) p pat (some []) rng =
      ⟨Outcome.ok t, PyData.table t, [], []⟩) ∧
    (inject_nulls (PyData.table [("A", [Cell.num 0])]) 1 none (some []) rng).result ≠
      (inject_nulls (PyData.table [("A", [Cell.num 0])]) 1 none none rng).result := by
  constructor
  · simp [inject_nulls, hp, resolveCols, processColumns]
  · have hp1 : (0 : ℚ) ≤ 1 ∧ (1 : ℚ) ≤ 1 := by norm_num
    obtain ⟨h1, h2⟩ := processColumns_prob_one hr ["A"] [("A", [Cell.num 0])] 0 (by decide)
    have hres : resolveCols none [("A", [Cell.num 0])] = ["A"] := by decide
    have hnull : nullifyCols ["A"] [("A", [Cell.num 0])] = [("A", [Cell.null])] := by decide
    rw [hnull] at h1
    have hL : (inject_nulls (PyData.table [("A", [Cell.num 0])]) 1 none (some []) rng).result =
        Outcome.ok [("A", [Cell.num 0])] := by
      simp [inject_nulls, hp1, resolveCols, processColumns]
    have hR : (inject_nulls (PyData.table [("A", [Cell.num 0])]) 1 none none rng).result =
        Outcome.ok [("A", [Cell.null])] := by
      simp [inject_nulls, hp1, hres, h1, h2]
    rw [hL, hR]
    decide

theorem inject_nulls_empty_columns_noop_witness :
    (inject_nulls (PyData.table [("A", [Cell.num 0]), ("B", [Cell.str "x"])])
        (1/2) (some "x") (some []) (fun _ => 0) =
      ⟨Outcome.ok [("A", [Cell.num 0]), ("B", [Cell.str "x"])],
        PyData.table [("A", [Cell.num 0]), ("B", [Cell.str "x"])], [], []⟩) ∧
    (inject_nulls (PyData.table [("A", [Cell.num 0])]) 1 none (some [])
        (fun _ => 0)).result ≠
      (inject_nulls (PyData.table [("A", [Cell.num 0])]) 1 none none
        (fun _ => 0)).result :=
  inject_nulls_empty_columns_noop [("A", [Cell.num 0]), ("B", [Cell.str "x"])]
    (1/2) (some "x") (fun _ => 0) (by norm_num) (fun _ => by norm_num)

example : reMatch "^a" "apple" = Except.ok true := rfl
example : reMatch "^a" "banana" = Except.ok false := rfl
example : reMatch "a" "avocado" = Except.ok true := rfl
example : (reParse "(").isOk = false := by decide
example : pyStrip " A " = "A" := by decide
example :
    inject_nulls (PyData.table [("A", [Cell.num 3])]) 1 none none (fun _ => 0) =
      ⟨Outcome.ok [("A", [Cell.null])], PyData.table [("A", [Cell.null])],
        [LogEvent.debugReplaced 0 "A"], [("A", 0)]⟩ := by decide
